import Mathlib

/-!
Verification of the training-loop specification of the MNIST notebook
(`3_Training_Neural_Networks.ipynb`) against its code.

The notebook builds `nn.Sequential(nn.Linear(784,128), nn.ReLU(),
nn.Linear(128,64), nn.ReLU(), nn.Linear(64,10), nn.LogSoftmax(dim=1))`,
trains it with `nn.NLLLoss()` and `optim.SGD(lr=0.003)` over epochs of
mini-batches, and reports a per-epoch mean loss.  We embed the numeric
core over the real numbers: tensors are `Fin`-indexed functions, a batch
of B rows of width n is `Mat B n`, and the library layers (`nn.Linear`,
`nn.ReLU`, `nn.LogSoftmax`) are translated to their documented real
arithmetic.
-/

open scoped BigOperators

namespace TrainingNN

/-- A dense real vector of length `n` (one tensor row, or a bias). -/
abbrev Vec (n : ℕ) : Type := Fin n → ℝ

/-- A dense real matrix with `m` rows and `n` columns. -/
abbrev Mat (m n : ℕ) : Type := Fin m → Fin n → ℝ

/-- `nn.Linear(n, m)` applied to one input row: `y = x · Wᵗ + b` with
weight `W : (m, n)` and bias `b : (m,)`, so `y j = (∑ k, W j k * x k) + b j`. -/
noncomputable def linear {m n : ℕ} (W : Mat m n) (b : Vec m) (x : Vec n) : Vec m :=
  fun j => (∑ k, W j k * x k) + b j

/-- `nn.ReLU()` on one scalar: `max(x, 0)`. -/
noncomputable def relu (x : ℝ) : ℝ := max x 0

/-- `log(∑ k, exp (z k))`, the normalizer of one log-softmax row. -/
noncomputable def logSumExp {n : ℕ} (z : Vec n) : ℝ :=
  Real.log (∑ k, Real.exp (z k))

/-- One row of `nn.LogSoftmax`: `log_probs j = z j − log(∑ k, exp (z k))`. -/
noncomputable def logSoftmax {n : ℕ} (z : Vec n) : Vec n :=
  fun j => z j - logSumExp z

/-- One row of softmax: `p j = exp (z j) / ∑ k, exp (z k)`. -/
noncomputable def softmax {n : ℕ} (z : Vec n) : Vec n :=
  fun j => Real.exp (z j) / ∑ k, Real.exp (z k)

/-- The maximum entry of a nonempty row, the shift of the numerically
stable log-softmax implementation. -/
noncomputable def rowMax {n : ℕ} [NeZero n] (z : Vec n) : ℝ :=
  Finset.univ.sup' Finset.univ_nonempty z

/-- One row of log-softmax computed with the numerically stable shift:
subtract the row maximum before exponentiating. -/
noncomputable def logSoftmaxStable {n : ℕ} [NeZero n] (z : Vec n) : Vec n :=
  fun j => (z j - rowMax z) - Real.log (∑ k, Real.exp (z k - rowMax z))

/-- The parameters of the notebook's three-layer perceptron
`Linear(n0,n1) → ReLU → Linear(n1,n2) → ReLU → Linear(n2,n3) → LogSoftmax`.
In the notebook `n0 = 784`, `n1 = 128`, `n2 = 64`, `n3 = 10`. -/
@[ext]
structure MLPParams (n0 n1 n2 n3 : ℕ) where
  W1 : Mat n1 n0
  b1 : Vec n1
  W2 : Mat n2 n1
  b2 : Vec n2
  W3 : Mat n3 n2
  b3 : Vec n3

variable {B n0 n1 n2 n3 : ℕ}

/-- `nn.Linear` applied to a whole batch, row by row. -/
noncomputable def batchLinear {m n : ℕ} (W : Mat m n) (b : Vec m) (X : Mat B n) : Mat B m :=
  fun i => linear W b (X i)

/-- `nn.ReLU` applied element-wise to a whole batch. -/
noncomputable def batchRelu {n : ℕ} (X : Mat B n) : Mat B n :=
  fun i j => relu (X i j)

/-- `nn.LogSoftmax(dim=1)`: log-softmax normalized along each row. -/
noncomputable def logSoftmaxDim1 {n : ℕ} (Z : Mat B n) : Mat B n :=
  fun i => logSoftmax (Z i)

/-- The notebook's `model(images)`: the `nn.Sequential` chain
Linear → ReLU → Linear → ReLU → Linear → LogSoftmax(dim=1) applied to the
flattened image batch. -/
noncomputable def modelForward (p : MLPParams n0 n1 n2 n3) (X : Mat B n0) : Mat B n3 :=
  logSoftmaxDim1 (batchLinear p.W3 p.b3
    (batchRelu (batchLinear p.W2 p.b2
      (batchRelu (batchLinear p.W1 p.b1 X)))))

/-- Transcribed from the spec: `hidden1 = ReLU(input · W1ᵗ + b1)`,
entry-wise `max((∑ k, input i k * W1 j k) + b1 j, 0)`. -/
noncomputable def specHidden1 (p : MLPParams n0 n1 n2 n3) (X : Mat B n0) : Mat B n1 :=
  fun i j => max ((∑ k, X i k * p.W1 j k) + p.b1 j) 0

/-- Transcribed from the spec: `hidden2 = ReLU(hidden1 · W2ᵗ + b2)`. -/
noncomputable def specHidden2 (p : MLPParams n0 n1 n2 n3) (X : Mat B n0) : Mat B n2 :=
  fun i j => max ((∑ k, specHidden1 p X i k * p.W2 j k) + p.b2 j) 0

/-- Transcribed from the spec: `logits = hidden2 · W3ᵗ + b3`. -/
noncomputable def specLogits (p : MLPParams n0 n1 n2 n3) (X : Mat B n0) : Mat B n3 :=
  fun i j => (∑ k, specHidden2 p X i k * p.W3 j k) + p.b3 j

/-- Transcribed from the spec: `log_probs = log_softmax(logits)` per row,
`log_probs i j = logits i j − log(∑ k, exp (logits i k))`. -/
noncomputable def specLogProbs (p : MLPParams n0 n1 n2 n3) (X : Mat B n0) : Mat B n3 :=
  fun i j => specLogits p X i j - Real.log (∑ k, Real.exp (specLogits p X i k))

theorem specHidden1_eq (p : MLPParams n0 n1 n2 n3) (X : Mat B n0) :
    batchRelu (batchLinear p.W1 p.b1 X) = specHidden1 p X := by
  funext i j
  simp only [batchRelu, batchLinear, linear, relu, specHidden1]
  congr 2
  exact Finset.sum_congr rfl fun k _ => mul_comm _ _

theorem specHidden2_eq (p : MLPParams n0 n1 n2 n3) (X : Mat B n0) :
    batchRelu (batchLinear p.W2 p.b2 (batchRelu (batchLinear p.W1 p.b1 X)))
      = specHidden2 p X := by
  funext i j
  simp only [batchRelu, batchLinear, linear, relu, specHidden2, ← specHidden1_eq]
  congr 2
  exact Finset.sum_congr rfl fun k _ => mul_comm _ _

theorem specLogits_eq (p : MLPParams n0 n1 n2 n3) (X : Mat B n0) :
    batchLinear p.W3 p.b3
        (batchRelu (batchLinear p.W2 p.b2 (batchRelu (batchLinear p.W1 p.b1 X))))
      = specLogits p X := by
  funext i j
  simp only [batchLinear, linear, specLogits, ← specHidden2_eq]
  congr 1
  exact Finset.sum_congr rfl fun k _ => mul_comm _ _

/-- C1: on every input batch of shape (B, 784) the model's forward pass
computes `hidden1 = ReLU(input · W1ᵗ + b1)` of shape (B, 128), then
`hidden2 = ReLU(hidden1 · W2ᵗ + b2)` of shape (B, 64), then
`logits = hidden2 · W3ᵗ + b3` of shape (B, 10), and finally
`log_probs = log_softmax(logits)` normalized per row, of shape (B, 10):
the `nn.Sequential` chain coincides entry-wise with the spec's staged
formulas (the shapes are carried by the types `Mat B 128`, `Mat B 64`,
`Mat B 10` of the stages). -/
theorem C1_forward_pass (p : MLPParams 784 128 64 10) (X : Mat B 784) :
    modelForward p X = specLogProbs p X := by
  funext i j
  simp only [modelForward, logSoftmaxDim1, logSoftmax, logSumExp, specLogProbs,
    specLogits_eq]

/-- The notebook's `criterion = nn.NLLLoss()` applied to a log-probability
batch and in-range labels: mean over rows of the negated log-probability of
the true class, `−(∑ i, logProbs i (labels i)) / B`. -/
noncomputable def nllMean {n : ℕ} (logProbs : Mat B n) (labels : Fin B → Fin n) : ℝ :=
  -((∑ i, logProbs i (labels i)) / (B : ℝ))

/-- Modelled from the spec: `nn.NLLLoss()` over raw integer labels, the
library operation behind `criterion(output, labels)`.  Its index check is
not in the notebook's own code; per the spec it returns the scalar
`−(1/B) ∑ i, log_probs[i][labels[i]]` and fails (here: `none`) exactly when
some label lies outside `[0, n)`. -/
noncomputable def nllLossChecked {n : ℕ} (logProbs : Mat B n) (labels : Fin B → ℤ) :
    Option ℝ :=
  if h : ∀ i, 0 ≤ labels i ∧ labels i < (n : ℤ) then
    some (-((∑ i, logProbs i ⟨(labels i).toNat, by
      have h1 := (h i).1
      have h2 := (h i).2
      omega⟩) / (B : ℝ)))
  else none

/-- C4: on `log_probs` of shape (B, 10) and an integer label vector of
length B, the loss computation returns the single scalar
`−(1/B) ∑ i, log_probs[i][labels[i]]` (written below with the label lookup
as an indicator sum), and it fails (returns `none`, the IndexError-equivalent
condition) if and only if some label lies outside `[0, 10)`. -/
theorem C4_nll_loss_contract (logProbs : Mat B 10) (labels : Fin B → ℤ) :
    nllLossChecked logProbs labels =
      if ∃ i, labels i < 0 ∨ 10 ≤ labels i then none
      else some (-((∑ i, ∑ j : Fin 10,
        if ((j : ℕ) : ℤ) = labels i then logProbs i j else 0) / (B : ℝ))) := by
  rw [nllLossChecked]
  by_cases h : ∀ i, 0 ≤ labels i ∧ labels i < ((10 : ℕ) : ℤ)
  · rw [dif_pos h, if_neg]
    · have key : ∀ i : Fin B, ∀ hb : (labels i).toNat < 10,
          (∑ j : Fin 10, if ((j : ℕ) : ℤ) = labels i then logProbs i j else 0)
            = logProbs i ⟨(labels i).toNat, hb⟩ := by
        intro i hb
        have h1 := (h i).1
        have hval : ((⟨(labels i).toNat, hb⟩ : Fin 10) : ℕ) = (labels i).toNat := rfl
        rw [Finset.sum_eq_single (⟨(labels i).toNat, hb⟩ : Fin 10)]
        · rw [if_pos (by rw [hval]; omega)]
        · intro j _ hne
          rw [if_neg]
          intro hc
          apply hne
          apply Fin.ext
          rw [hval]
          omega
        · intro hmem
          exact absurd (Finset.mem_univ _) hmem
      rw [Finset.sum_congr rfl fun i _ => key i (by
        have h1 := (h i).1
        have h2 := (h i).2
        omega)]
    · push_neg
      intro i
      have h1 := (h i).1
      have h2 := (h i).2
      constructor
      · omega
      · omega
  · rw [dif_neg h, if_pos]
    push_neg at h
    obtain ⟨i, hi⟩ := h
    refine ⟨i, ?_⟩
    by_cases h0 : 0 ≤ labels i
    · right
      have := hi h0
      omega
    · left
      omega

/-- C6: for every row of logits, the exponentials of the stably computed
log-softmax outputs (row-max shift subtracted before exponentiating) sum to
1 exactly over the reals, hence within the 1e-6 tolerance; moreover the
shifted computation produces the same row as the model's log-softmax. -/
theorem C6_logsoftmax_rows_normalized (z : Vec 10) :
    |(∑ j, Real.exp (logSoftmaxStable z j)) - 1| ≤ 1e-6
    ∧ logSoftmaxStable z = logSoftmax z := by
  have hS : 0 < ∑ k, Real.exp (z k - rowMax z) :=
    Finset.sum_pos (fun k _ => Real.exp_pos _) Finset.univ_nonempty
  have hpos : 0 < ∑ k, Real.exp (z k) :=
    Finset.sum_pos (fun k _ => Real.exp_pos _) Finset.univ_nonempty
  constructor
  · have h1 : (∑ j, Real.exp (logSoftmaxStable z j)) = 1 := by
      have hL : ∀ j : Fin 10, Real.exp (logSoftmaxStable z j)
          = Real.exp (z j - rowMax z) / (∑ k, Real.exp (z k - rowMax z)) := by
        intro j
        rw [logSoftmaxStable, Real.exp_sub, Real.exp_log hS]
      rw [Finset.sum_congr rfl fun j _ => hL j, ← Finset.sum_div,
        div_self (ne_of_gt hS)]
    rw [h1]
    norm_num
  · funext j
    rw [logSoftmaxStable, logSoftmax, logSumExp]
    have hsum : (∑ k, Real.exp (z k - rowMax z))
        = (∑ k, Real.exp (z k)) * Real.exp (-(rowMax z)) := by
      rw [Finset.sum_mul]
      refine Finset.sum_congr rfl fun k _ => ?_
      rw [sub_eq_add_neg, Real.exp_add]
    rw [hsum, Real.log_mul (ne_of_gt hpos) (ne_of_gt (Real.exp_pos _)), Real.log_exp]
    ring

/-- The scalar loss of the notebook's pipeline as a function of the raw
logits: `criterion(log_softmax(dim=1)(logits), labels)`, the composition
that `loss.backward()` differentiates through. -/
noncomputable def lossOfLogits {n : ℕ} (Z : Mat B n) (labels : Fin B → Fin n) : ℝ :=
  nllMean (logSoftmaxDim1 Z) labels

/-- The logits tensor with the single entry at row `i`, column `j`
replaced by `t`: the one-coordinate perturbation along which the partial
derivative of the loss is taken. -/
noncomputable def perturbEntry {n : ℕ} (Z : Mat B n) (i : Fin B) (j : Fin n) (t : ℝ) :
    Mat B n :=
  fun r c => if r = i ∧ c = j then t else Z r c

/-- C2: the gradient of the mean NLL loss with respect to the logit entry
(i, j) equals `(softmax(logits)[i][j] − 1{j = labels i}) / B`: the
one-variable function obtained by perturbing that entry has exactly this
derivative at the current logits. -/
theorem C2_logits_gradient {n : ℕ} (Z : Mat B n) (labels : Fin B → Fin n)
    (i : Fin B) (j : Fin n) :
    HasDerivAt (fun t => lossOfLogits (perturbEntry Z i j t) labels)
      ((softmax (Z i) j - if j = labels i then 1 else 0) / (B : ℝ)) (Z i j) := by
  have hfun : (fun t => lossOfLogits (perturbEntry Z i j t) labels)
      = fun t => -((∑ r, (perturbEntry Z i j t r (labels r)
          - Real.log (∑ k, Real.exp (perturbEntry Z i j t r k)))) / (B : ℝ)) := by
    funext t
    simp only [lossOfLogits, nllMean, logSoftmaxDim1, logSoftmax, logSumExp]
  rw [hfun]
  set t0 := Z i j with ht0
  have hrow : ∀ r : Fin B, HasDerivAt
      (fun t => perturbEntry Z i j t r (labels r)
        - Real.log (∑ k, Real.exp (perturbEntry Z i j t r k)))
      (if r = i then ((if labels i = j then 1 else 0) - softmax (Z i) j) else 0) t0 := by
    intro r
    by_cases hr : r = i
    · subst hr
      rw [if_pos rfl]
      have hA : HasDerivAt (fun t => perturbEntry Z r j t r (labels r))
          (if labels r = j then 1 else 0) t0 := by
        by_cases hl : labels r = j
        · rw [if_pos hl]
          have hfn : (fun t => perturbEntry Z r j t r (labels r)) = fun t => t := by
            funext t
            simp [perturbEntry, hl]
          rw [hfn]
          exact hasDerivAt_id t0
        · rw [if_neg hl]
          have hfn : (fun t => perturbEntry Z r j t r (labels r))
              = fun _ => Z r (labels r) := by
            funext t
            simp [perturbEntry, hl]
          rw [hfn]
          exact hasDerivAt_const t0 _
      have hSsum : HasDerivAt (fun t => ∑ k, Real.exp (perturbEntry Z r j t r k))
          (Real.exp t0) t0 := by
        have h1 : HasDerivAt (fun t => ∑ k, Real.exp (perturbEntry Z r j t r k))
            (∑ k : Fin n, if k = j then Real.exp t0 else 0) t0 := by
          apply HasDerivAt.sum
          intro k _
          by_cases hk : k = j
          · rw [if_pos hk]
            have hfn : (fun t => Real.exp (perturbEntry Z r j t r k)) = Real.exp := by
              funext t
              simp [perturbEntry, hk]
            rw [hfn]
            exact Real.hasDerivAt_exp t0
          · rw [if_neg hk]
            have hfn : (fun t => Real.exp (perturbEntry Z r j t r k))
                = fun _ => Real.exp (Z r k) := by
              funext t
              simp [perturbEntry, hk]
            rw [hfn]
            exact hasDerivAt_const t0 _
        simpa using h1
      have hSval : (∑ k, Real.exp (perturbEntry Z r j t0 r k)) = ∑ k, Real.exp (Z r k) := by
        refine Finset.sum_congr rfl fun k _ => ?_
        by_cases hk : k = j
        · subst hk
          simp [perturbEntry, ht0]
        · simp [perturbEntry, hk]
      have hne : Nonempty (Fin n) := ⟨j⟩
      have hSpos : 0 < ∑ k, Real.exp (Z r k) :=
        Finset.sum_pos (fun k _ => Real.exp_pos _) Finset.univ_nonempty
      have hlog : HasDerivAt
          (fun t => Real.log (∑ k, Real.exp (perturbEntry Z r j t r k)))
          (Real.exp t0 / ∑ k, Real.exp (Z r k)) t0 := by
        have hl := hSsum.log (by
          rw [hSval]
          exact ne_of_gt hSpos)
        rw [hSval] at hl
        exact hl
      have hterm := hA.sub hlog
      convert hterm using 1
    · rw [if_neg hr]
      have hfn : (fun t => perturbEntry Z i j t r (labels r)
            - Real.log (∑ k, Real.exp (perturbEntry Z i j t r k)))
          = fun _ => Z r (labels r) - Real.log (∑ k, Real.exp (Z r k)) := by
        funext t
        simp [perturbEntry, hr]
      rw [hfn]
      exact hasDerivAt_const t0 _
  have hsum : HasDerivAt
      (fun t => ∑ r, (perturbEntry Z i j t r (labels r)
        - Real.log (∑ k, Real.exp (perturbEntry Z i j t r k))))
      (∑ r : Fin B, if r = i then ((if labels i = j then 1 else 0) - softmax (Z i) j) else 0)
      t0 := HasDerivAt.sum fun r _ => hrow r
  have htot := (hsum.div_const (B : ℝ)).neg
  have hD : (∑ r : Fin B,
      if r = i then ((if labels i = j then 1 else 0) - softmax (Z i) j) else 0)
        = (if labels i = j then 1 else 0) - softmax (Z i) j := by
    simp
  rw [hD] at htot
  have hiff : (if labels i = j then (1 : ℝ) else 0) = (if j = labels i then 1 else 0) := by
    by_cases hl : labels i = j
    · rw [if_pos hl, if_pos hl.symm]
    · rw [if_neg hl, if_neg fun hc => hl hc.symm]
  rw [hiff] at htot
  convert htot using 1
  ring

/-- The all-zero gradient accumulator bundle, the result of
`optimizer.zero_grad()`: one tensor per parameter, same shapes. -/
noncomputable def zeroGrads : MLPParams n0 n1 n2 n3 where
  W1 := fun _ _ => 0
  b1 := fun _ => 0
  W2 := fun _ _ => 0
  b2 := fun _ => 0
  W3 := fun _ _ => 0
  b3 := fun _ => 0

/-- Tensor-wise sum of two gradient accumulator bundles. -/
noncomputable def addGrads (g h : MLPParams n0 n1 n2 n3) : MLPParams n0 n1 n2 n3 where
  W1 := fun j k => g.W1 j k + h.W1 j k
  b1 := fun j => g.b1 j + h.b1 j
  W2 := fun j k => g.W2 j k + h.W2 j k
  b2 := fun j => g.b2 j + h.b2 j
  W3 := fun j k => g.W3 j k + h.W3 j k
  b3 := fun j => g.b3 j + h.b3 j

/-- Tensor-wise scaling of a gradient accumulator bundle. -/
noncomputable def smulGrads (c : ℝ) (g : MLPParams n0 n1 n2 n3) : MLPParams n0 n1 n2 n3 where
  W1 := fun j k => c * g.W1 j k
  b1 := fun j => c * g.b1 j
  W2 := fun j k => c * g.W2 j k
  b2 := fun j => c * g.b2 j
  W3 := fun j k => c * g.W3 j k
  b3 := fun j => c * g.b3 j

/-- Pre-activation of the first layer on the batch. -/
noncomputable def act1 (p : MLPParams n0 n1 n2 n3) (X : Mat B n0) : Mat B n1 :=
  batchLinear p.W1 p.b1 X

/-- First hidden activation `hidden1`. -/
noncomputable def hid1 (p : MLPParams n0 n1 n2 n3) (X : Mat B n0) : Mat B n1 :=
  batchRelu (act1 p X)

/-- Pre-activation of the second layer on the batch. -/
noncomputable def act2 (p : MLPParams n0 n1 n2 n3) (X : Mat B n0) : Mat B n2 :=
  batchLinear p.W2 p.b2 (hid1 p X)

/-- Second hidden activation `hidden2`. -/
noncomputable def hid2 (p : MLPParams n0 n1 n2 n3) (X : Mat B n0) : Mat B n2 :=
  batchRelu (act2 p X)

/-- The raw logits of the batch, before `nn.LogSoftmax`. -/
noncomputable def logitsOf (p : MLPParams n0 n1 n2 n3) (X : Mat B n0) : Mat B n3 :=
  batchLinear p.W3 p.b3 (hid2 p X)

/-- Modelled from the spec: the gradient of the mean NLL loss with respect
to the logits, `(softmax(logits)[i][j] − 1{j = labels i}) / B`, the seed of
the reverse pass that the notebook delegates to `loss.backward()`. -/
noncomputable def dLogits (p : MLPParams n0 n1 n2 n3) (X : Mat B n0)
    (y : Fin B → Fin n3) : Mat B n3 :=
  fun i j => (softmax (logitsOf p X i) j - if j = y i then 1 else 0) / (B : ℝ)

/-- Backward step of ReLU: the incoming gradient masked by
`forward input > 0`. -/
noncomputable def reluMask {n : ℕ} (A D : Mat B n) : Mat B n :=
  fun i k => if 0 < A i k then D i k else 0

/-- Gradient propagated to `hidden2`: `dy · W3`. -/
noncomputable def dHid2 (p : MLPParams n0 n1 n2 n3) (X : Mat B n0)
    (y : Fin B → Fin n3) : Mat B n2 :=
  fun i k => ∑ j, dLogits p X y i j * p.W3 j k

/-- Gradient at the second pre-activation: ReLU mask applied. -/
noncomputable def dAct2 (p : MLPParams n0 n1 n2 n3) (X : Mat B n0)
    (y : Fin B → Fin n3) : Mat B n2 :=
  reluMask (act2 p X) (dHid2 p X y)

/-- Gradient propagated to `hidden1`: `dy · W2`. -/
noncomputable def dHid1 (p : MLPParams n0 n1 n2 n3) (X : Mat B n0)
    (y : Fin B → Fin n3) : Mat B n1 :=
  fun i k => ∑ j, dAct2 p X y i j * p.W2 j k

/-- Gradient at the first pre-activation: ReLU mask applied. -/
noncomputable def dAct1 (p : MLPParams n0 n1 n2 n3) (X : Mat B n0)
    (y : Fin B → Fin n3) : Mat B n1 :=
  reluMask (act1 p X) (dHid1 p X y)

/-- Modelled from the spec: the per-batch parameter gradients produced by
reverse-mode differentiation (`loss.backward()`): for each affine layer
`y = x · Wᵗ + b`, `dW = dyᵗ · x` and `db` is the column sum of `dy`. -/
noncomputable def gradOf (p : MLPParams n0 n1 n2 n3) (X : Mat B n0)
    (y : Fin B → Fin n3) : MLPParams n0 n1 n2 n3 where
  W1 := fun j k => ∑ i, dAct1 p X y i j * X i k
  b1 := fun j => ∑ i, dAct1 p X y i j
  W2 := fun j k => ∑ i, dAct2 p X y i j * hid1 p X i k
  b2 := fun j => ∑ i, dAct2 p X y i j
  W3 := fun j k => ∑ i, dLogits p X y i j * hid2 p X i k
  b3 := fun j => ∑ i, dLogits p X y i j

/-- The mutable state of one loop iteration: the persistent parameters and
gradient accumulators, the current batch (flattened images and labels), and
the tensors the iteration produces (`output`, the scalar loss). -/
structure TrainState (B n0 n1 n2 n3 : ℕ) where
  params : MLPParams n0 n1 n2 n3
  grads : MLPParams n0 n1 n2 n3
  images : Mat B n0
  labels : Fin B → Fin n3
  output : Option (Mat B n3)
  lossVal : Option ℝ

/-- `optimizer.zero_grad()`: reset every gradient accumulator to zero. -/
noncomputable def zeroGradPhase (s : TrainState B n0 n1 n2 n3) : TrainState B n0 n1 n2 n3 :=
  { s with grads := zeroGrads }

/-- `output = model(images)`: run the forward pass and record its output. -/
noncomputable def forwardPhase (s : TrainState B n0 n1 n2 n3) : TrainState B n0 n1 n2 n3 :=
  { s with output := some (modelForward s.params s.images) }

/-- `loss = criterion(output, labels)`: the scalar NLL loss of the recorded
forward output. -/
noncomputable def lossPhase (s : TrainState B n0 n1 n2 n3) : TrainState B n0 n1 n2 n3 :=
  { s with lossVal := s.output.map fun o => nllMean o s.labels }

/-- `loss.backward()`: add the batch gradients into the accumulators
(accumulate, never overwrite). -/
noncomputable def backwardPhase (s : TrainState B n0 n1 n2 n3) : TrainState B n0 n1 n2 n3 :=
  { s with grads := addGrads s.grads (gradOf s.params s.images s.labels) }

/-- The `optim.SGD(lr)` update on the parameter bundle:
`P ← P − lr · G` for every parameter tensor. -/
noncomputable def sgdUpdate (lr : ℝ) (p g : MLPParams n0 n1 n2 n3) : MLPParams n0 n1 n2 n3 where
  W1 := fun j k => p.W1 j k - lr * g.W1 j k
  b1 := fun j => p.b1 j - lr * g.b1 j
  W2 := fun j k => p.W2 j k - lr * g.W2 j k
  b2 := fun j => p.b2 j - lr * g.b2 j
  W3 := fun j k => p.W3 j k - lr * g.W3 j k
  b3 := fun j => p.b3 j - lr * g.b3 j

/-- `optimizer.step()`: apply the SGD update to the parameters. -/
noncomputable def stepPhase (lr : ℝ) (s : TrainState B n0 n1 n2 n3) : TrainState B n0 n1 n2 n3 :=
  { s with params := sgdUpdate lr s.params s.grads }

/-- One loop-body iteration, in program order: zero the accumulators, run
the forward pass, compute the loss, run the backward pass, take an
optimizer step. -/
noncomputable def trainBatchPhases (lr : ℝ) (s : TrainState B n0 n1 n2 n3) :
    TrainState B n0 n1 n2 n3 :=
  stepPhase lr (backwardPhase (lossPhase (forwardPhase (zeroGradPhase s))))

/-- C3: one optimizer step with fixed learning rate `lr` replaces every
parameter tensor `P` by `P − lr · G` where `G` is its gradient accumulator,
and changes nothing else of the training state: accumulators, batch,
recorded output and loss are untouched. -/
theorem C3_sgd_step (lr : ℝ) (s : TrainState B n0 n1 n2 n3) :
    ((stepPhase lr s).params.W1 = fun j k => s.params.W1 j k - lr * s.grads.W1 j k)
    ∧ ((stepPhase lr s).params.b1 = fun j => s.params.b1 j - lr * s.grads.b1 j)
    ∧ ((stepPhase lr s).params.W2 = fun j k => s.params.W2 j k - lr * s.grads.W2 j k)
    ∧ ((stepPhase lr s).params.b2 = fun j => s.params.b2 j - lr * s.grads.b2 j)
    ∧ ((stepPhase lr s).params.W3 = fun j k => s.params.W3 j k - lr * s.grads.W3 j k)
    ∧ ((stepPhase lr s).params.b3 = fun j => s.params.b3 j - lr * s.grads.b3 j)
    ∧ (stepPhase lr s).grads = s.grads
    ∧ (stepPhase lr s).images = s.images
    ∧ (stepPhase lr s).labels = s.labels
    ∧ (stepPhase lr s).output = s.output
    ∧ (stepPhase lr s).lossVal = s.lossVal := by
  exact ⟨rfl, rfl, rfl, rfl, rfl, rfl, rfl, rfl, rfl, rfl, rfl⟩

/-- C5: on a fixed batch with fixed parameters, running the backward pass
twice after the explicit zeroing leaves every gradient accumulator holding
exactly twice what a single backward pass produces: backward adds into the
accumulators and never overwrites them. -/
theorem C5_backward_accumulates (s : TrainState B n0 n1 n2 n3) :
    (backwardPhase s).grads = addGrads s.grads (gradOf s.params s.images s.labels)
    ∧ (backwardPhase (backwardPhase (zeroGradPhase s))).grads
        = smulGrads 2 ((backwardPhase (zeroGradPhase s)).grads) := by
  refine ⟨rfl, ?_⟩
  show addGrads (addGrads zeroGrads (gradOf s.params s.images s.labels))
      (gradOf s.params s.images s.labels)
    = smulGrads 2 (addGrads zeroGrads (gradOf s.params s.images s.labels))
  ext <;> simp [addGrads, smulGrads, zeroGrads] <;> ring

/-- C8: the forward pass has no side effect beyond producing its output
tensor: parameters, gradient accumulators, the input batch, the label
vector and the recorded loss are all unchanged, and the output slot
receives exactly `modelForward params images`. -/
theorem C8_forward_pure (s : TrainState B n0 n1 n2 n3) :
    (forwardPhase s).params = s.params
    ∧ (forwardPhase s).grads = s.grads
    ∧ (forwardPhase s).images = s.images
    ∧ (forwardPhase s).labels = s.labels
    ∧ (forwardPhase s).lossVal = s.lossVal
    ∧ (forwardPhase s).output = some (modelForward s.params s.images) := by
  exact ⟨rfl, rfl, rfl, rfl, rfl, rfl⟩

/-- The shape of each tensor of a parameter (or gradient accumulator)
bundle, rendered as dimension lists. -/
def bundleShapes (p : MLPParams n0 n1 n2 n3) : List (List ℕ) :=
  [[n1, n0], [n1], [n2, n1], [n2], [n3, n2], [n3]]

/-- C9: at every point of the loop iteration, the shape of every gradient
accumulator equals the shape of its parameter; the invariant is preserved
by the zeroing phase, by the backward pass, and by the optimizer step (the
embedding carries shapes in the types, rendered here as dimension lists). -/
theorem C9_grad_shapes (lr : ℝ) (s : TrainState B n0 n1 n2 n3) :
    bundleShapes (zeroGradPhase s).grads = bundleShapes (zeroGradPhase s).params
    ∧ bundleShapes (backwardPhase s).grads = bundleShapes (backwardPhase s).params
    ∧ bundleShapes (stepPhase lr s).grads = bundleShapes (stepPhase lr s).params
    ∧ bundleShapes (trainBatchPhases lr s).grads
        = bundleShapes (trainBatchPhases lr s).params := by
  exact ⟨rfl, rfl, rfl, rfl⟩

/-- One mini-batch as yielded by `trainloader`: a possibly shorter final
batch is allowed, so the batch carries its own row count. -/
structure BatchData (n0 n3 : ℕ) where
  bsize : ℕ
  images : Mat bsize n0
  labels : Fin bsize → Fin n3

/-- The loop state at the head of an iteration, assembled from the
persistent parameters and accumulators and the freshly loaded batch. -/
noncomputable def batchState (p g : MLPParams n0 n1 n2 n3) (b : BatchData n0 n3) :
    TrainState b.bsize n0 n1 n2 n3 :=
  { params := p, grads := g, images := b.images, labels := b.labels,
    output := none, lossVal := none }

/-- The loop body of the training loop: run the five phases on the batch,
keep the updated parameters and accumulators, and add `loss.item()` to the
running loss. -/
noncomputable def loopBody (lr : ℝ)
    (acc : (MLPParams n0 n1 n2 n3 × MLPParams n0 n1 n2 n3) × ℝ)
    (b : BatchData n0 n3) :
    (MLPParams n0 n1 n2 n3 × MLPParams n0 n1 n2 n3) × ℝ :=
  let s := trainBatchPhases lr (batchState acc.1.1 acc.1.2 b)
  ((s.params, s.grads), acc.2 + s.lossVal.getD 0)

/-- One epoch: fold the loop body over the batches with the running loss
starting at 0. -/
noncomputable def runEpoch (lr : ℝ)
    (pg : MLPParams n0 n1 n2 n3 × MLPParams n0 n1 n2 n3)
    (batches : List (BatchData n0 n3)) :
    (MLPParams n0 n1 n2 n3 × MLPParams n0 n1 n2 n3) × ℝ :=
  batches.foldl (loopBody lr) (pg, 0)

/-- The parameters and accumulators carried out of one loop iteration. -/
noncomputable def nextPG (lr : ℝ)
    (pg : MLPParams n0 n1 n2 n3 × MLPParams n0 n1 n2 n3) (b : BatchData n0 n3) :
    MLPParams n0 n1 n2 n3 × MLPParams n0 n1 n2 n3 :=
  ((trainBatchPhases lr (batchState pg.1 pg.2 b)).params,
   (trainBatchPhases lr (batchState pg.1 pg.2 b)).grads)

/-- The per-batch scalar losses of one epoch, in loop order, following the
parameter trajectory. -/
noncomputable def batchLossList (lr : ℝ)
    (pg : MLPParams n0 n1 n2 n3 × MLPParams n0 n1 n2 n3) :
    List (BatchData n0 n3) → List ℝ
  | [] => []
  | b :: bs =>
      (trainBatchPhases lr (batchState pg.1 pg.2 b)).lossVal.getD 0
        :: batchLossList lr (nextPG lr pg b) bs

/-- The parameters and accumulators after a whole epoch, batch by batch. -/
noncomputable def endPG (lr : ℝ)
    (pg : MLPParams n0 n1 n2 n3 × MLPParams n0 n1 n2 n3) :
    List (BatchData n0 n3) → MLPParams n0 n1 n2 n3 × MLPParams n0 n1 n2 n3
  | [] => pg
  | b :: bs => endPG lr (nextPG lr pg b) bs

theorem runEpoch_foldl (lr : ℝ) :
    ∀ (bs : List (BatchData n0 n3))
      (pg : MLPParams n0 n1 n2 n3 × MLPParams n0 n1 n2 n3) (r0 : ℝ),
      List.foldl (loopBody lr) (pg, r0) bs
        = (endPG lr pg bs, r0 + (batchLossList lr pg bs).sum)
  | [], pg, r0 => by
      simp [endPG, batchLossList]
  | b :: bs, pg, r0 => by
      rw [List.foldl_cons]
      have h1 : loopBody lr (pg, r0) b
          = (nextPG lr pg b,
             r0 + (trainBatchPhases lr (batchState pg.1 pg.2 b)).lossVal.getD 0) := rfl
      rw [h1, runEpoch_foldl lr bs (nextPG lr pg b) _]
      simp [endPG, batchLossList]
      ring

theorem runEpoch_loss (lr : ℝ)
    (pg : MLPParams n0 n1 n2 n3 × MLPParams n0 n1 n2 n3)
    (bs : List (BatchData n0 n3)) :
    (runEpoch lr pg bs).2 = (batchLossList lr pg bs).sum := by
  rw [runEpoch, runEpoch_foldl lr bs pg 0]
  simp

/-- The per-epoch report emitted by the loop's `for`/`else` clause, with a
caller-chosen rendering `fmt` of the real number. -/
def epochLine (fmt : ℝ → String) (n : ℕ) (meanLoss : ℝ) : String :=
  "Epoch " ++ toString n ++ ", Training loss: " ++ fmt meanLoss

/-- The epoch loop: run `E` more epochs from the 0-indexed epoch counter
`idx`, returning the final parameter state and the emitted report lines in
order. -/
noncomputable def runTrainingAux (fmt : ℝ → String) (lr : ℝ)
    (batches : List (BatchData n0 n3)) :
    ℕ → ℕ → (MLPParams n0 n1 n2 n3 × MLPParams n0 n1 n2 n3) →
      (MLPParams n0 n1 n2 n3 × MLPParams n0 n1 n2 n3) × List String
  | 0, _, pg => (pg, [])
  | e + 1, idx, pg =>
      let r := runEpoch lr pg batches
      let rest := runTrainingAux fmt lr batches e (idx + 1) r.1
      (rest.1, epochLine fmt (idx + 1) (r.2 / (batches.length : ℝ)) :: rest.2)

/-- The notebook's training loop: `epochs` epochs over `trainloader`,
printing one report line per epoch. -/
noncomputable def runTraining (fmt : ℝ → String) (lr : ℝ) (epochs : ℕ)
    (pg : MLPParams n0 n1 n2 n3 × MLPParams n0 n1 n2 n3)
    (batches : List (BatchData n0 n3)) :
    (MLPParams n0 n1 n2 n3 × MLPParams n0 n1 n2 n3) × List String :=
  runTrainingAux fmt lr batches epochs 0 pg

/-- The parameter state at the start of 0-indexed epoch `e`. -/
noncomputable def pgAfterEpochs (lr : ℝ) (batches : List (BatchData n0 n3))
    (pg : MLPParams n0 n1 n2 n3 × MLPParams n0 n1 n2 n3) :
    ℕ → MLPParams n0 n1 n2 n3 × MLPParams n0 n1 n2 n3
  | 0 => pg
  | e + 1 => (runEpoch lr (pgAfterEpochs lr batches pg e) batches).1

theorem pgAfterEpochs_shift (lr : ℝ) (batches : List (BatchData n0 n3))
    (pg : MLPParams n0 n1 n2 n3 × MLPParams n0 n1 n2 n3) :
    ∀ e : ℕ, pgAfterEpochs lr batches ((runEpoch lr pg batches).1) e
      = pgAfterEpochs lr batches pg (e + 1)
  | 0 => rfl
  | e + 1 => by
      show (runEpoch lr (pgAfterEpochs lr batches ((runEpoch lr pg batches).1) e) batches).1
        = _
      rw [pgAfterEpochs_shift lr batches pg e]
      rfl

theorem runTrainingAux_log (fmt : ℝ → String) (lr : ℝ)
    (batches : List (BatchData n0 n3)) :
    ∀ (E idx : ℕ) (pg : MLPParams n0 n1 n2 n3 × MLPParams n0 n1 n2 n3),
      (runTrainingAux fmt lr batches E idx pg).2
        = (List.range E).map (fun e =>
            epochLine fmt (idx + e + 1)
              ((runEpoch lr (pgAfterEpochs lr batches pg e) batches).2
                / (batches.length : ℝ)))
  | 0, idx, pg => by
      simp [runTrainingAux]
  | E + 1, idx, pg => by
      have hrec := runTrainingAux_log fmt lr batches E (idx + 1) ((runEpoch lr pg batches).1)
      have hstep : (runTrainingAux fmt lr batches (E + 1) idx pg).2
          = epochLine fmt (idx + 1) ((runEpoch lr pg batches).2 / (batches.length : ℝ))
            :: (runTrainingAux fmt lr batches E (idx + 1) ((runEpoch lr pg batches).1)).2 :=
        rfl
      rw [hstep, hrec, List.range_succ_eq_map, List.map_cons, List.map_map]
      have hfun : ((fun e => epochLine fmt (idx + e + 1)
              ((runEpoch lr (pgAfterEpochs lr batches pg e) batches).2
                / (batches.length : ℝ))) ∘ Nat.succ)
          = fun e => epochLine fmt (idx + 1 + e + 1)
              ((runEpoch lr
                  (pgAfterEpochs lr batches ((runEpoch lr pg batches).1) e) batches).2
                / (batches.length : ℝ)) := by
        funext e
        simp only [Function.comp, Nat.succ_eq_add_one]
        rw [← pgAfterEpochs_shift lr batches pg e]
        have harith : idx + (e + 1) + 1 = idx + 1 + e + 1 := by omega
        rw [harith]
      rw [hfun]
      rfl

/-- C7: after the batches of each epoch are exhausted the loop emits
exactly one line `Epoch n, Training loss: m` per epoch, where `n` is the
1-indexed epoch number and `m` is the running sum of that epoch's
per-batch scalar losses divided by the number of batches per epoch. -/
theorem C7_epoch_report (fmt : ℝ → String) (lr : ℝ) (E : ℕ)
    (pg : MLPParams n0 n1 n2 n3 × MLPParams n0 n1 n2 n3)
    (batches : List (BatchData n0 n3)) :
    (runTraining fmt lr E pg batches).2
      = (List.range E).map (fun e =>
          epochLine fmt (e + 1)
            ((batchLossList lr (pgAfterEpochs lr batches pg e) batches).sum
              / (batches.length : ℝ))) := by
  rw [runTraining, runTrainingAux_log fmt lr batches E 0 pg]
  refine congrArg (List.map · (List.range E)) ?_
  funext e
  rw [runEpoch_loss]
  have harith : 0 + e + 1 = e + 1 := by omega
  rw [harith]

/-- The epoch figure the loop reports: the running loss divided by
`len(trainloader)`, the batch count. -/
noncomputable def reportedMeanLoss (lr : ℝ)
    (pg : MLPParams n0 n1 n2 n3 × MLPParams n0 n1 n2 n3)
    (bs : List (BatchData n0 n3)) : ℝ :=
  (runEpoch lr pg bs).2 / (bs.length : ℝ)

/-- The per-sample mean loss of the epoch: each batch's per-batch mean
weighted by its row count, divided by the total number of samples. -/
noncomputable def perSampleMeanLoss (lr : ℝ)
    (pg : MLPParams n0 n1 n2 n3 × MLPParams n0 n1 n2 n3)
    (bs : List (BatchData n0 n3)) : ℝ :=
  (List.zipWith (fun (b : BatchData n0 n3) (l : ℝ) => (b.bsize : ℝ) * l)
      bs (batchLossList lr pg bs)).sum
    / ((bs.map fun b => (b.bsize : ℝ)).sum)

theorem sgdUpdate_zero (p g : MLPParams n0 n1 n2 n3) : sgdUpdate 0 p g = p := by
  ext <;> simp [sgdUpdate]

/-- A minimal parameter bundle (widths 1, 1, 1, and 2 classes) whose zero
weights make every logit row equal `(1, 0)` regardless of the input. -/
noncomputable def tinyParams : MLPParams 1 1 1 2 where
  W1 := fun _ _ => 0
  b1 := fun _ => 0
  W2 := fun _ _ => 0
  b2 := fun _ => 0
  W3 := fun _ _ => 0
  b3 := fun j => if j = 0 then 1 else 0

/-- A two-row batch labelled with class 0. -/
noncomputable def tinyBatchA : BatchData 1 2 where
  bsize := 2
  images := fun _ _ => 0
  labels := fun _ => 0

/-- A final one-row batch labelled with class 1. -/
noncomputable def tinyBatchB : BatchData 1 2 where
  bsize := 1
  images := fun _ _ => 0
  labels := fun _ => 1

theorem tiny_forward (Bn : ℕ) (X : Mat Bn 1) (i : Fin Bn) (j : Fin 2) :
    modelForward tinyParams X i j
      = (if j = 0 then 1 else 0) - Real.log (Real.exp 1 + Real.exp 0) := by
  have hz : ∀ j : Fin 2,
      batchLinear tinyParams.W3 tinyParams.b3
          (batchRelu (batchLinear tinyParams.W2 tinyParams.b2
            (batchRelu (batchLinear tinyParams.W1 tinyParams.b1 X)))) i j
        = (if j = 0 then 1 else 0) := by
    intro j
    simp [batchLinear, linear, batchRelu, relu, tinyParams]
  simp only [modelForward, logSoftmaxDim1, logSoftmax, logSumExp]
  rw [hz j]
  rw [Finset.sum_congr rfl fun k _ => congrArg Real.exp (hz k)]
  rw [Fin.sum_univ_two]
  norm_num

theorem tiny_lossA (g : MLPParams 1 1 1 2) :
    (trainBatchPhases (0 : ℝ) (batchState tinyParams g tinyBatchA)).lossVal.getD 0
      = Real.log (Real.exp 1 + Real.exp 0) - 1 := by
  show @nllMean 2 2 (@modelForward 2 1 1 1 2 tinyParams tinyBatchA.images) tinyBatchA.labels
    = Real.log (Real.exp 1 + Real.exp 0) - 1
  rw [nllMean]
  rw [Finset.sum_congr rfl fun i _ => tiny_forward 2 tinyBatchA.images i (tinyBatchA.labels i)]
  simp [tinyBatchA, Fin.sum_univ_two]

theorem tiny_lossB (g : MLPParams 1 1 1 2) :
    (trainBatchPhases (0 : ℝ) (batchState tinyParams g tinyBatchB)).lossVal.getD 0
      = Real.log (Real.exp 1 + Real.exp 0) := by
  show @nllMean 1 2 (@modelForward 1 1 1 1 2 tinyParams tinyBatchB.images) tinyBatchB.labels
    = Real.log (Real.exp 1 + Real.exp 0)
  rw [nllMean]
  rw [Finset.sum_congr rfl fun i _ => tiny_forward 1 tinyBatchB.images i (tinyBatchB.labels i)]
  simp [tinyBatchB, Fin.sum_univ_one]

theorem tiny_nextA (g : MLPParams 1 1 1 2) :
    (nextPG (0 : ℝ) (tinyParams, g) tinyBatchA).1 = tinyParams := by
  show sgdUpdate 0 tinyParams
      (addGrads zeroGrads (gradOf tinyParams tinyBatchA.images tinyBatchA.labels))
    = tinyParams
  exact sgdUpdate_zero _ _

theorem tiny_lossList :
    batchLossList (0 : ℝ) (tinyParams, zeroGrads) [tinyBatchA, tinyBatchB]
      = [Real.log (Real.exp 1 + Real.exp 0) - 1, Real.log (Real.exp 1 + Real.exp 0)] := by
  simp only [batchLossList]
  rw [tiny_nextA]
  rw [tiny_lossA, tiny_lossB]

/-- C10: every batch's scalar loss enters the reported epoch figure with
equal weight 1/len(trainloader): the running sum is divided by the batch
count, and the MNIST split 60000 = 64·937 + 32 leaves a shorter final
batch; consequently the reported figure is the mean of per-batch mean
losses, not the per-sample mean loss — a two-batch epoch with batch sizes
2 and 1 exhibits the difference. -/
theorem C10_reported_mean_weighting (lr : ℝ)
    (pg : MLPParams n0 n1 n2 n3 × MLPParams n0 n1 n2 n3)
    (bs : List (BatchData n0 n3)) :
    reportedMeanLoss lr pg bs = (batchLossList lr pg bs).sum / (bs.length : ℝ)
    ∧ 60000 % 64 = 32
    ∧ (List.map (fun b => b.bsize) [tinyBatchA, tinyBatchB] = [2, 1]
        ∧ reportedMeanLoss 0 (tinyParams, zeroGrads) [tinyBatchA, tinyBatchB]
            ≠ perSampleMeanLoss 0 (tinyParams, zeroGrads) [tinyBatchA, tinyBatchB]) := by
  refine ⟨?_, by norm_num, ?_, ?_⟩
  · rw [reportedMeanLoss, runEpoch_loss]
  · simp [tinyBatchA, tinyBatchB]
  · rw [reportedMeanLoss, runEpoch_loss, tiny_lossList, perSampleMeanLoss, tiny_lossList]
    simp only [tinyBatchA, tinyBatchB, List.zipWith, List.map, List.sum_cons, List.sum_nil,
      List.length_cons, List.length_nil]
    norm_num
    intro h
    linarith

end TrainingNN
